import Mathlib

/-!
# Verification of the QR-filename core of `generate_qrs.py`

Shallow embedding of the string-processing core of `src/generate_qrs.py`:
`_ensure_url_scheme`, `_safe_basename` and the item loop of `make_qr_svgs`.

The script delegates URL parsing to CPython's `urllib.parse.urlparse` and
hashing to `hashlib.blake2b`; both are embedded here as well, since the
behaviour of the repository functions depends on them:

* `urlparse` follows CPython 3.11 (`urlsplit` with the WHATWG C0-control/space
  lstrip, removal of tab/CR/LF bytes, the letter-first scheme test, the
  mismatched-bracket `ValueError`, and `_splitparams` guarded by
  `uses_params`).  Two raising checks of CPython are not modelled:
  `_check_bracketed_host` (validation of a bracket-matched `[...]` host via
  the `ipaddress` module, CPython >= 3.11) and `_checknetloc` (rejection of
  non-ASCII netlocs whose NFKC normalization introduces separators).  Both
  concern only netlocs that contain a matched `[`..`]` pair or non-ASCII
  compatibility characters; no claim below is decided on such inputs.
* `blake2b` is RFC 7693 BLAKE2b (no key, digest size a parameter), applied to
  the UTF-8 encoding of the hint.

Raising Python code is embedded with `Except String`; the error value is the
`ValueError` message.  Machine words of BLAKE2b are `Nat` reduced `% 2 ^ 64`.
-/

deriving instance DecidableEq for Except

namespace GenQr

/-! ## Python string primitives -/

/-- Code points for which Python's `str.isspace` holds; `str.strip()` strips
exactly these characters from both ends. -/
def pySpaceCodes : List Nat :=
  [0x9, 0xa, 0xb, 0xc, 0xd, 0x1c, 0x1d, 0x1e, 0x1f, 0x20, 0x85, 0xa0, 0x1680,
   0x2000, 0x2001, 0x2002, 0x2003, 0x2004, 0x2005, 0x2006, 0x2007, 0x2008,
   0x2009, 0x200a, 0x2028, 0x2029, 0x202f, 0x205f, 0x3000]

def pyIsSpace (c : Char) : Bool := pySpaceCodes.contains c.toNat

/-- Remove the characters satisfying `p` from both ends of `l`
(Python `str.strip` with the character class `p`). -/
def pyStripBy (p : Char → Bool) (l : List Char) : List Char :=
  (((l.dropWhile p).reverse.dropWhile p)).reverse

/-- Python `s.strip()` (no argument: strip whitespace). -/
def pyStrip (s : String) : String := ⟨pyStripBy pyIsSpace s.data⟩

/-- Python slice `l[:k]` for an `int` bound `k` (negative bounds count from
the end, clamped at zero). -/
def pySliceTo (k : Int) (l : List Char) : List Char :=
  if k < 0 then l.take ((l.length + k).toNat) else l.take k.toNat

/-- Python `s.split(sep)` for a one-character separator: always a non-empty
list, empty pieces preserved. -/
def pySplit (sep : Char) : List Char → List (List Char)
  | [] => [[]]
  | c :: cs =>
    match pySplit sep cs with
    | [] => [[]]
    | h :: t => if c = sep then [] :: h :: t else (c :: h) :: t

/-- Split at the first occurrence of `c`: Python `s.split(c, 1)` when `c`
occurs; when `c` does not occur the result is `(l, [])`. -/
def splitAtFirst (c : Char) (l : List Char) : List Char × List Char :=
  ((l.span (fun d => d ≠ c)).1, (l.span (fun d => d ≠ c)).2.drop 1)

/-! ## `urllib.parse.urlparse` (CPython 3.11)

`ParseResult` carries the six components of `urlparse`; the script reads
`.scheme`, `.netloc` and `.path`. -/

structure ParseResult where
  scheme : List Char
  netloc : List Char
  path : List Char
  params : List Char
  query : List Char
  fragment : List Char
deriving DecidableEq, Repr

/-- `urllib.parse.scheme_chars`. -/
def schemeChars : List Char :=
  "abcdefghijklmnopqrstuvwxyzABCDEFGHIJKLMNOPQRSTUVWXYZ0123456789+-.".data

def isSchemeChar (c : Char) : Bool := schemeChars.contains c

/-- `_WHATWG_C0_CONTROL_OR_SPACE` membership: code points `<= 0x20`. -/
def isC0OrSpace (c : Char) : Bool := c.toNat ≤ 0x20

/-- Remove `_UNSAFE_URL_BYTES_TO_REMOVE` (tab, CR, LF) everywhere. -/
def dropBadUrlBytes (l : List Char) : List Char :=
  l.filter (fun c => c ≠ '\t' && c ≠ '\r' && c ≠ '\n')

/-- The scheme test of `urlsplit`: `i = url.find(':')`; when `i > 0`,
`url[0]` is an ASCII letter and every character of `url[:i]` is in
`scheme_chars`, the scheme is `url[:i].lower()` and the rest is `url[i+1:]`;
otherwise there is no scheme and the url is unchanged. -/
def extractScheme (l : List Char) : List Char × List Char :=
  match l.span (fun c => c ≠ ':') with
  | (pre, rest) =>
    match rest with
    | [] => ([], l)
    | _ :: post =>
      match pre with
      | [] => ([], l)
      | c0 :: _ =>
        if c0.isAlpha && pre.all isSchemeChar then (pre.map Char.toLower, post)
        else ([], l)

/-- `_splitnetloc`: the netloc extends to the earliest of `/`, `?`, `#`. -/
def splitNetloc (l : List Char) : List Char × List Char :=
  l.span (fun c => !(c = '/' || c = '?' || c = '#'))

/-- The `if url[:2] == '//'` block of `urlsplit`: split off the netloc and
raise `ValueError` on a bracket-mismatched one. -/
def netlocPhase (url2 : List Char) : Except String (List Char × List Char) :=
  match url2 with
  | '/' :: '/' :: rest =>
    let sp := splitNetloc rest
    if (sp.1.contains '[' && !sp.1.contains ']')
        || (sp.1.contains ']' && !sp.1.contains '[') then
      .error "Invalid IPv6 URL"
    else .ok sp
  | _ => .ok ([], url2)

/-- `urlsplit(url)` with default arguments: `(scheme, netloc, path, query,
fragment)`, or the `ValueError` message for a bracket-mismatched netloc. -/
def pyUrlsplitCore (input : List Char) :
    Except String (List Char × List Char × List Char × List Char × List Char) :=
  let url1 := dropBadUrlBytes (input.dropWhile isC0OrSpace)
  let sp := extractScheme url1
  (netlocPhase sp.2).map fun nl =>
    let f := splitAtFirst '#' nl.2
    let q := splitAtFirst '?' f.1
    (sp.1, nl.1, q.1, q.2, f.2)

/-- `urllib.parse.uses_params`. -/
def usesParams : List (List Char) :=
  (["", "ftp", "hdl", "prospero", "http", "imap", "https", "shttp", "rtsp",
    "rtsps", "rtspu", "sip", "sips", "mms", "sftp", "tel"]).map String.data

/-- `_splitparams(url)`: split `;params` off the last path segment (only
called when `;` occurs in `url`). -/
def pySplitparams (url : List Char) : List Char × List Char :=
  if url.contains '/' then
    match url.reverse.span (fun d => d ≠ '/') with
    | (revB, rest) =>
      match rest with
      | [] => (url, [])
      | _ :: revA =>
        match (revB.reverse).span (fun d => d ≠ ';') with
        | (b1, srest) =>
          match srest with
          | [] => (url, [])
          | _ :: b2 => (revA.reverse ++ '/' :: b1, b2)
  else
    match url.span (fun d => d ≠ ';') with
    | (p1, srest) =>
      match srest with
      | [] => (url, [])
      | _ :: p2 => (p1, p2)

/-- `urlparse` on a `List Char`: `urlsplit` plus the `params` split, which
CPython performs only when the scheme is in `uses_params`. -/
def pyUrlparseCore (input : List Char) : Except String ParseResult :=
  (pyUrlsplitCore input).map fun r =>
    let scheme := r.1
    let netloc := r.2.1
    let url := r.2.2.1
    let query := r.2.2.2.1
    let fragment := r.2.2.2.2
    if usesParams.contains scheme && url.contains ';' then
      ⟨scheme, netloc, (pySplitparams url).1, (pySplitparams url).2, query, fragment⟩
    else ⟨scheme, netloc, url, [], query, fragment⟩

def pyUrlparse (s : String) : Except String ParseResult := pyUrlparseCore s.data

/-! ## The bare-domain heuristic regex

`re.match(r"^(www\.)?[A-Za-z0-9.-]+\.[A-Za-z]{2,}(/.*)?$", s)` of
`_ensure_url_scheme`, as a decision procedure.  The translation:

* `[A-Za-z0-9.-]` is `isDomainChar`.  Since `www.` consists of such
  characters, the optional group `(www\.)?` does not change the recognized
  language and is absorbed into `[A-Za-z0-9.-]+`.
* A full match of `[A-Za-z0-9.-]+\.[A-Za-z]{2,}` forces the literal `\.` to
  be the *last* dot (the tail `[A-Za-z]{2,}` cannot contain a dot), so the
  host part matches iff the part before its last dot is a non-empty run of
  domain characters and the part after it is two or more ASCII letters.
* `/` occurs in neither character class, so `(/.*)?` must start at the first
  `/` of the string; `.` does not match a newline.
* `$` matches at the end of the string or just before a single final
  newline. -/

def isDomainChar (c : Char) : Bool := c.isAlpha || c.isDigit || c = '.' || c = '-'

/-- Full match of `(www\.)?[A-Za-z0-9.-]+\.[A-Za-z]{2,}` (see above). -/
def hostPartMatch (l : List Char) : Bool :=
  match l.reverse.span (fun c => c ≠ '.') with
  | (revSuf, rest) =>
    match rest with
    | [] => false
    | _ :: revPre =>
      !revPre.isEmpty && revPre.all isDomainChar
        && decide (2 ≤ revSuf.length) && revSuf.all Char.isAlpha

/-- Full match of `(www\.)?[A-Za-z0-9.-]+\.[A-Za-z]{2,}(/.*)?` where `.`
excludes newlines. -/
def domainThenPath (l : List Char) : Bool :=
  hostPartMatch (l.takeWhile (fun c => c ≠ '/'))
    && (l.dropWhile (fun c => c ≠ '/')).all (fun c => c ≠ '\n')

/-- The whole `re.match` of `_ensure_url_scheme`, including the
end-anchor alternative just before one final newline. -/
def bareDomainMatch (l : List Char) : Bool :=
  domainThenPath l
    || (match l.getLast? with
        | some c => c = '\n' && domainThenPath l.dropLast
        | none => false)

/-! ## `_ensure_url_scheme` -/

/-- `_ensure_url_scheme(s)`: trim; return the empty string unchanged; return
unchanged when `urlparse` finds a scheme; prepend `https://` when the
bare-domain regex matches; otherwise return unchanged.  A `ValueError`
raised by `urlparse` propagates as `.error`. -/
def _ensure_url_scheme (s : String) : Except String String :=
  let t := pyStrip s
  if t.data.isEmpty then .ok t
  else
    (pyUrlparseCore t.data).map fun parsed =>
      if !parsed.scheme.isEmpty then t
      else if bareDomainMatch t.data then ⟨"https://".data ++ t.data⟩
      else t

/-! ## UTF-8 encoding

Python `str.encode("utf-8")`, as a byte list.  `Char` excludes surrogates,
so the encoding is total.  Bit-fiddling is written with `/`, `%`, `+` on
disjoint ranges (a continuation payload is `< 0x40`, a leading-byte payload
is below the gap to the next marker), which equals the usual shift/mask/or
form. -/

def utf8Bytes (c : Char) : List Nat :=
  let n := c.toNat
  if n < 0x80 then [n]
  else if n < 0x800 then [0xc0 + n / 0x40, 0x80 + n % 0x40]
  else if n < 0x10000 then
    [0xe0 + n / 0x1000, 0x80 + n / 0x40 % 0x40, 0x80 + n % 0x40]
  else
    [0xf0 + n / 0x40000, 0x80 + n / 0x1000 % 0x40, 0x80 + n / 0x40 % 0x40,
     0x80 + n % 0x40]

def utf8Encode (l : List Char) : List Nat := l.flatMap utf8Bytes

/-! ## BLAKE2b (RFC 7693), unkeyed, variable digest length

Words are `Nat` values kept below `2 ^ 64` by reducing additions modulo
`2 ^ 64`; `rotr64` is the 64-bit right rotation written arithmetically. -/

def MOD64 : Nat := 2 ^ 64

def add64 (a b : Nat) : Nat := (a + b) % MOD64

/-- Right-rotate a 64-bit word by `n` (for `x < 2 ^ 64`, `0 < n < 64`). -/
def rotr64 (x n : Nat) : Nat := x / 2 ^ n + x % 2 ^ n * 2 ^ (64 - n)

/-- BLAKE2b initialization vector. -/
def blakeIV : List Nat :=
  [0x6a09e667f3bcc908, 0xbb67ae8584caa73b, 0x3c6ef372fe94f82b,
   0xa54ff53a5f1d36f1, 0x510e527fade682d1, 0x9b05688c2b3e6c1f,
   0x1f83d9abfb41bd6b, 0x5be0cd19137e2179]

/-- BLAKE2b message schedule SIGMA (rounds 10 and 11 reuse rows 0 and 1). -/
def blakeSigma : List (List Nat) :=
  [[0, 1, 2, 3, 4, 5, 6, 7, 8, 9, 10, 11, 12, 13, 14, 15],
   [14, 10, 4, 8, 9, 15, 13, 6, 1, 12, 0, 2, 11, 7, 5, 3],
   [11, 8, 12, 0, 5, 2, 15, 13, 10, 14, 3, 6, 7, 1, 9, 4],
   [7, 9, 3, 1, 13, 12, 11, 14, 2, 6, 5, 10, 4, 0, 15, 8],
   [9, 0, 5, 7, 2, 4, 10, 15, 14, 1, 11, 12, 6, 8, 3, 13],
   [2, 12, 6, 10, 0, 11, 8, 3, 4, 13, 7, 5, 15, 14, 1, 9],
   [12, 5, 1, 15, 14, 13, 4, 10, 0, 7, 6, 3, 9, 2, 8, 11],
   [13, 11, 7, 14, 12, 1, 3, 9, 5, 0, 15, 4, 8, 6, 2, 10],
   [6, 15, 14, 9, 11, 3, 0, 8, 12, 2, 13, 7, 1, 4, 10, 5],
   [10, 2, 8, 4, 7, 6, 1, 5, 15, 11, 9, 14, 3, 12, 13, 0]]

/-- The G mixing function on the 16-word work vector `v`. -/
def gMix (v : List Nat) (a b c d x y : Nat) : List Nat :=
  let va := add64 (add64 (v.getD a 0) (v.getD b 0)) x
  let vd := rotr64 (Nat.xor (v.getD d 0) va) 32
  let vc := add64 (v.getD c 0) vd
  let vb := rotr64 (Nat.xor (v.getD b 0) vc) 24
  let va2 := add64 (add64 va vb) y
  let vd2 := rotr64 (Nat.xor vd va2) 16
  let vc2 := add64 vc vd2
  let vb2 := rotr64 (Nat.xor vb vc2) 63
  (((v.set a va2).set b vb2).set c vc2).set d vd2

/-- One BLAKE2b round with message words `m` and SIGMA row `s`. -/
def blakeRound (m v s : List Nat) : List Nat :=
  let mw := fun i => m.getD (s.getD i 0) 0
  let v := gMix v 0 4 8 12 (mw 0) (mw 1)
  let v := gMix v 1 5 9 13 (mw 2) (mw 3)
  let v := gMix v 2 6 10 14 (mw 4) (mw 5)
  let v := gMix v 3 7 11 15 (mw 6) (mw 7)
  let v := gMix v 0 5 10 15 (mw 8) (mw 9)
  let v := gMix v 1 6 11 12 (mw 10) (mw 11)
  let v := gMix v 2 7 8 13 (mw 12) (mw 13)
  let v := gMix v 3 4 9 14 (mw 14) (mw 15)
  v

/-- A little-endian word from up to eight bytes. -/
def leWord (bytes : List Nat) : Nat := bytes.foldr (fun b acc => b + 0x100 * acc) 0

/-- The sixteen little-endian message words of one 128-byte block
(short blocks are zero-padded). -/
def blockWords (bs : List Nat) : List Nat :=
  (List.range 16).map fun i => leWord ((bs.drop (8 * i)).take 8)

/-- The BLAKE2b compression function `F(h, m, t, f)`. -/
def blakeCompress (h : List Nat) (blockBytes : List Nat) (t : Nat) (last : Bool) :
    List Nat :=
  let m := blockWords blockBytes
  let v := h ++ blakeIV
  let v := v.set 12 (Nat.xor (v.getD 12 0) (t % MOD64))
  let v := v.set 13 (Nat.xor (v.getD 13 0) (t / MOD64 % MOD64))
  let v := if last then v.set 14 (Nat.xor (v.getD 14 0) (MOD64 - 1)) else v
  let v := (List.range 12).foldl (fun w i => blakeRound m w (blakeSigma.getD (i % 10) [])) v
  (List.range 8).map fun i => Nat.xor (Nat.xor (h.getD i 0) (v.getD i 0)) (v.getD (i + 8) 0)

/-- Process the message 128 bytes at a time; `done` counts the bytes already
compressed.  The final (possibly empty) block is compressed with the
finalization flag and `t` equal to the total message length. -/
def blakeLoop (h : List Nat) (msg : List Nat) (done : Nat) : List Nat :=
  if msg.length ≤ 128 then blakeCompress h msg (done + msg.length) true
  else blakeLoop (blakeCompress h (msg.take 128) (done + 128) false) (msg.drop 128) (done + 128)
termination_by msg.length
decreasing_by simp; omega

/-- The eight little-endian bytes of a 64-bit word. -/
def wordBytes (w : Nat) : List Nat := (List.range 8).map fun i => w / 2 ^ (8 * i) % 0x100

/-- BLAKE2b of a byte list with digest length `nn` (no key): the parameter
word `0x0101packed00 + nn` (fanout 1, depth 1, key length 0, digest length
`nn`) is XORed into `h0`, and the first `nn` bytes of the serialized state
are the digest. -/
def blake2b (msg : List Nat) (nn : Nat) : List Nat :=
  let h0 := Nat.xor (blakeIV.getD 0 0) (0x01010000 + nn)
  let h := h0 :: blakeIV.drop 1
  ((blakeLoop h msg 0).flatMap wordBytes).take nn

def hexDigitChars : List Char := "0123456789abcdef".data

def hexChar (n : Nat) : Char := hexDigitChars.getD n '0'

/-- Lowercase hex encoding of a byte list (Python `hexdigest`). -/
def bytesToHex (bs : List Nat) : List Char :=
  bs.flatMap fun b => [hexChar (b / 0x10), hexChar (b % 0x10)]

/-- `hashlib.blake2b(msg.encode("utf-8"), digest_size=nn).hexdigest()`. -/
def blake2bHexdigest (msg : List Char) (nn : Nat) : List Char :=
  bytesToHex (blake2b (utf8Encode msg) nn)

/-! ## `_safe_basename` -/

/-- The hint of `_safe_basename`: the stripped input, or `"empty"` when
that is empty. -/
def hintOf (s : String) : List Char :=
  let h := pyStripBy pyIsSpace s.data
  if h.isEmpty then "empty".data else h

/-- `next((p for p in path.split("/") if p), "")`: the first non-empty
`/`-delimited piece, or the empty string. -/
def firstSeg (path : List Char) : List Char :=
  ((pySplit '/' path).find? (fun p => !p.isEmpty)).getD []

/-- The `parts` list of `_safe_basename`: the netloc, followed by the first
non-empty path segment when the path is neither empty nor `"/"` and such a
segment exists; without a netloc, the first 24 characters of the hint. -/
def readableParts (hint : List Char) (parsed : ParseResult) : List (List Char) :=
  if !parsed.netloc.isEmpty then
    parsed.netloc ::
      (if !parsed.path.isEmpty && parsed.path ≠ "/".data then
        (let seg := firstSeg parsed.path
         if !seg.isEmpty then [seg] else [])
      else [])
  else [hint.take 24]

/-- `readable = "-".join(parts) if parts else "item"` (before sanitizing). -/
def readableOf (hint : List Char) (parsed : ParseResult) : List Char :=
  let parts := readableParts hint parsed
  if parts.isEmpty then "item".data else List.intercalate ['-'] parts

/-- The character class kept by the sanitizer: `[A-Za-z0-9._-]`. -/
def safeNameChar (c : Char) : Bool :=
  c.isAlpha || c.isDigit || c = '.' || c = '_' || c = '-'

/-- `re.sub(r"[^A-Za-z0-9._-]+", "-", l)`: each maximal run of characters
outside the class becomes one `-`.  The flag records whether the previous
character was inside such a run. -/
def reSubDash (inRun : Bool) : List Char → List Char
  | [] => []
  | c :: cs =>
    if safeNameChar c then c :: reSubDash false cs
    else if inRun then reSubDash true cs
    else '-' :: reSubDash true cs

/-- The sanitizing line: `re.sub(...).strip("-._")`, with the `"item"`
fallback when the result is empty. -/
def sanitizeReadable (l : List Char) : List Char :=
  let r := pyStripBy (fun c => c = '-' || c = '.' || c = '_') (reSubDash false l)
  if r.isEmpty then "item".data else r

/-- `_safe_basename(s, max_len)`: readable hint plus 6-byte BLAKE2b hex
suffix over the hint, truncated to `max_len`, with the `"qr"` fallback.
A `ValueError` of `urlparse` propagates as `.error`. -/
def _safe_basename (s : String) (max_len : Int) : Except String String :=
  let hint := hintOf s
  (pyUrlparseCore hint).map fun parsed =>
    let readable := sanitizeReadable (readableOf hint parsed)
    let short_hash := blake2bHexdigest hint 6
    let base := readable ++ '-' :: short_hash
    let base := if (base.length : Int) > max_len then pySliceTo max_len base else base
    ⟨if base.isEmpty then "qr".data else base⟩

/-! ## `make_qr_svgs`

Only the identifier-deriving skeleton of the loop is embedded: `None`
items are skipped, blank items are skipped, and each remaining item
contributes `out / (_safe_basename(payload) + ".svg")` to the returned
list.  The calls `segno.make(payload, ...)` and `qr.save(...)` and the
`out.mkdir(...)` are external effects (the QR encoding is out of scope for
the specification) and do not influence the returned paths; `out / fname`
is path concatenation, since `fname` never contains a separator.  Items are
`Option String`, `none` embedding Python `None`; for a string item
`str(raw)` is the identity. -/

def mqrLoop (out_dir : String) (written : List String) :
    List (Option String) → Except String (List String)
  | [] => .ok written
  | raw :: rest =>
    match raw with
    | none => mqrLoop out_dir written rest
    | some r =>
      let text := pyStrip r
      if text.data.isEmpty then mqrLoop out_dir written rest
      else do
        let payload ← _ensure_url_scheme text
        let base ← _safe_basename payload 64
        mqrLoop out_dir (written ++ [out_dir ++ "/" ++ base ++ ".svg"]) rest

def make_qr_svgs (items : List (Option String)) (out_dir : String) :
    Except String (List String) :=
  mqrLoop out_dir [] items

/-! ## Helper lemmas -/

theorem all_of_sublist {p : Char → Bool} {l m : List Char} (hs : List.Sublist l m)
    (hm : m.all p = true) : l.all p = true := by
  rw [List.all_eq_true] at hm ⊢
  exact fun x hx => hm x (hs.subset hx)

theorem pyStripBy_sublist (p : Char → Bool) (l : List Char) :
    List.Sublist (pyStripBy p l) l := by
  unfold pyStripBy
  have h1 : List.Sublist ((l.dropWhile p).reverse.dropWhile p).reverse
      (l.dropWhile p).reverse.reverse := (List.dropWhile_sublist p).reverse
  rw [List.reverse_reverse] at h1
  exact h1.trans (List.dropWhile_sublist p)

theorem reSubDash_all_safe (b : Bool) (l : List Char) :
    (reSubDash b l).all safeNameChar = true := by
  induction l generalizing b with
  | nil => rfl
  | cons c cs ih =>
    by_cases h : safeNameChar c = true
    · simpa [reSubDash, h] using ih false
    · cases b with
      | true => simpa [reSubDash, h] using ih true
      | false =>
        have hdash : safeNameChar '-' = true := by decide
        simp [reSubDash, h, hdash, ih true]

theorem sanitizeReadable_all_safe (l : List Char) :
    (sanitizeReadable l).all safeNameChar = true := by
  simp only [sanitizeReadable]
  split
  · decide
  · exact all_of_sublist (pyStripBy_sublist _ _) (reSubDash_all_safe false l)

theorem sanitizeReadable_ne_nil (l : List Char) : sanitizeReadable l ≠ [] := by
  simp only [sanitizeReadable]
  split
  · decide
  · next h => simpa using h

theorem hexChar_safe (n : Nat) : safeNameChar (hexChar n) = true := by
  unfold hexChar
  rcases lt_or_le n 16 with h | h
  · interval_cases n <;> decide
  · have h16 : hexDigitChars.length = 16 := rfl
    rw [List.getD_eq_default _ _ (by omega)]
    decide

theorem bytesToHex_all_safe (bs : List Nat) :
    (bytesToHex bs).all safeNameChar = true := by
  induction bs with
  | nil => rfl
  | cons b t ih => simp [bytesToHex, List.flatMap_cons, hexChar_safe]

theorem bytesToHex_length (bs : List Nat) :
    (bytesToHex bs).length = 2 * bs.length := by
  induction bs with
  | nil => rfl
  | cons b t ih => simp [bytesToHex, List.flatMap_cons] at ih ⊢; omega

theorem blakeCompress_length (h blockBytes : List Nat) (t : Nat) (last : Bool) :
    (blakeCompress h blockBytes t last).length = 8 := by
  simp [blakeCompress]

theorem blakeLoop_length (msg : List Nat) : ∀ h done, (blakeLoop h msg done).length = 8 := by
  generalize hn : msg.length = n
  induction n using Nat.strong_induction_on generalizing msg with
  | _ n ih =>
    intro h done
    rw [blakeLoop]
    split
    · exact blakeCompress_length ..
    · next hlong =>
      apply ih (msg.drop 128).length _ _ rfl
      subst hn
      simp only [List.length_drop]
      omega

theorem flatMap_wordBytes_length (ws : List Nat) :
    (ws.flatMap wordBytes).length = 8 * ws.length := by
  induction ws with
  | nil => rfl
  | cons w t ih => simp [List.flatMap_cons, ih, wordBytes]; ring

theorem blake2b_length (msg : List Nat) (nn : Nat) (hnn : nn ≤ 64) :
    (blake2b msg nn).length = nn := by
  unfold blake2b
  rw [List.length_take, flatMap_wordBytes_length, blakeLoop_length]
  omega

theorem blake2bHexdigest_length (msg : List Char) :
    (blake2bHexdigest msg 6).length = 12 := by
  unfold blake2bHexdigest
  rw [bytesToHex_length, blake2b_length (utf8Encode msg) 6 (by omega)]

/-! ## Unfolding `_safe_basename`

`base_candidate` is the string `f"{readable}-{short_hash}"` before the
truncation step; `postTrunc` is the truncation step plus the `"qr"`
fallback. -/

def base_candidate (s : String) (parsed : ParseResult) : List Char :=
  sanitizeReadable (readableOf (hintOf s) parsed) ++ '-' :: blake2bHexdigest (hintOf s) 6

def postTrunc (m : Int) (base : List Char) : List Char :=
  let b := if (base.length : Int) > m then pySliceTo m base else base
  if b.isEmpty then "qr".data else b

theorem safe_basename_ok (s : String) (m : Int) (parsed : ParseResult)
    (hp : pyUrlparseCore (hintOf s) = .ok parsed) :
    _safe_basename s m = .ok ⟨postTrunc m (base_candidate s parsed)⟩ := by
  simp only [_safe_basename]
  rw [hp]
  rfl

theorem safe_basename_error (s : String) (m : Int) (e : String)
    (hp : pyUrlparseCore (hintOf s) = .error e) :
    _safe_basename s m = .error e := by
  simp only [_safe_basename]
  rw [hp]
  rfl

theorem base_candidate_ne_nil (s : String) (parsed : ParseResult) :
    base_candidate s parsed ≠ [] := by
  simp [base_candidate]

theorem base_candidate_all_safe (s : String) (parsed : ParseResult) :
    (base_candidate s parsed).all safeNameChar = true := by
  unfold base_candidate blake2bHexdigest
  rw [List.all_append, List.all_cons]
  simp [sanitizeReadable_all_safe, bytesToHex_all_safe]
  decide

theorem base_candidate_length (s : String) (parsed : ParseResult) :
    (base_candidate s parsed).length =
      (sanitizeReadable (readableOf (hintOf s) parsed)).length + 13 := by
  simp [base_candidate, blake2bHexdigest_length]

theorem pySliceTo_sublist (k : Int) (l : List Char) :
    List.Sublist (pySliceTo k l) l := by
  unfold pySliceTo
  split <;> exact List.take_sublist _ _

theorem postTrunc_eq (m : Int) (base : List Char) :
    postTrunc m base =
      if (base.length : Int) > m then
        (if (pySliceTo m base).isEmpty then "qr".data else pySliceTo m base)
      else (if base.isEmpty then "qr".data else base) := by
  by_cases hA : (base.length : Int) > m <;> simp [postTrunc, hA]

theorem postTrunc_ne_nil (m : Int) (base : List Char) : postTrunc m base ≠ [] := by
  rw [postTrunc_eq]
  split
  · split
    · decide
    · next h => simpa using h
  · split
    · decide
    · next h => simpa using h

theorem postTrunc_all_safe (m : Int) (base : List Char)
    (hb : base.all safeNameChar = true) :
    (postTrunc m base).all safeNameChar = true := by
  rw [postTrunc_eq]
  split
  · split
    · decide
    · exact all_of_sublist (pySliceTo_sublist m base) hb
  · split
    · decide
    · exact hb

theorem postTrunc_of_short (m : Int) (base : List Char)
    (hm : (base.length : Int) ≤ m) (hb : base ≠ []) :
    postTrunc m base = base := by
  rw [postTrunc_eq, if_neg (not_lt.mpr hm), if_neg (by simpa using hb)]

theorem string_mk_ne_empty {l : List Char} (h : l ≠ []) : (⟨l⟩ : String) ≠ "" := by
  intro hc
  exact h (String.ext_iff.mp hc)

/-! ## The claims -/

/-- C1: for every input string, whenever `_safe_basename` (default
`max_len = 64`) returns, the result is a non-empty string whose every
character lies in `[A-Za-z0-9._-]`; in particular the all-symbol input
`"!!!@@@"` yields `"item-"` followed by the 12-hex-character hash. -/
theorem claim_C1 :
    (∀ (s b : String), _safe_basename s 64 = .ok b →
        b ≠ "" ∧ b.data.all safeNameChar = true) ∧
    _safe_basename "!!!@@@" 64 =
      .ok ⟨"item-".data ++ blake2bHexdigest "!!!@@@".data 6⟩ ∧
    (blake2bHexdigest "!!!@@@".data 6).length = 12 := by
  refine ⟨?_, ?_, blake2bHexdigest_length _⟩
  · intro s b h
    cases hp : pyUrlparseCore (hintOf s) with
    | error e =>
      rw [safe_basename_error s 64 e hp] at h
      exact absurd h (by simp)
    | ok parsed =>
      rw [safe_basename_ok s 64 parsed hp] at h
      injection h with h
      subst h
      refine ⟨string_mk_ne_empty (postTrunc_ne_nil _ _), ?_⟩
      exact postTrunc_all_safe _ _ (base_candidate_all_safe s parsed)
  · have hp : pyUrlparseCore (hintOf "!!!@@@") =
        .ok ⟨[], [], "!!!@@@".data, [], [], []⟩ := by decide
    rw [safe_basename_ok _ _ _ hp]
    have hbase : base_candidate "!!!@@@" ⟨[], [], "!!!@@@".data, [], [], []⟩ =
        "item".data ++ '-' :: blake2bHexdigest "!!!@@@".data 6 := by
      have hh : hintOf "!!!@@@" = "!!!@@@".data := by decide
      rw [base_candidate, hh]
      have hsan : sanitizeReadable
          (readableOf "!!!@@@".data ⟨[], [], "!!!@@@".data, [], [], []⟩) =
          "item".data := by decide
      rw [hsan]
    have h13 : ('-' :: blake2bHexdigest "!!!@@@".data 6).length = 13 := by
      rw [List.length_cons, blake2bHexdigest_length]
    have h17 : ("item".data ++ '-' :: blake2bHexdigest "!!!@@@".data 6).length = 17 := by
      rw [List.length_append, h13]
      decide
    congr 1
    rw [hbase, postTrunc_of_short 64 _ (by rw [h17]; decide) (by simp)]
    rfl

theorem postTrunc_of_long (m : Int) (hm : 1 ≤ m) (base : List Char) (hb : base ≠ [])
    (hl : (base.length : Int) > m) : postTrunc m base = base.take m.toNat := by
  rw [postTrunc_eq, if_pos hl]
  have hs : pySliceTo m base = base.take m.toNat := by
    unfold pySliceTo
    rw [if_neg (by omega)]
  rw [hs, if_neg ?_]
  rw [List.isEmpty_iff, List.take_eq_nil_iff]
  push_neg
  exact ⟨by omega, hb⟩

theorem postTrunc_zero (base : List Char) (hb : base ≠ []) :
    postTrunc 0 base = "qr".data := by
  have hl : ((base.length : Int)) > 0 := by
    have := List.length_pos.mpr hb
    omega
  rw [postTrunc_eq, if_pos hl]
  have hs : pySliceTo 0 base = [] := by
    unfold pySliceTo
    rw [if_neg (by omega)]
    simp
  rw [hs]
  rfl

/-- C1 witness: the properties at the concrete input `"!!!@@@"`. -/
theorem claim_C1_witness :
    (⟨"item-".data ++ blake2bHexdigest "!!!@@@".data 6⟩ : String) ≠ "" ∧
    (⟨"item-".data ++ blake2bHexdigest "!!!@@@".data 6⟩ : String).data.all
      safeNameChar = true :=
  claim_C1.1 "!!!@@@" _ claim_C1.2.1

/-- C5: the hash suffix of `_safe_basename` is the 12-hex-character
encoding of the 6-byte BLAKE2b digest of the UTF-8 encoding of the original
hint (the pre-sanitization value, not the sanitized readable part and not a
separately normalized payload), and the value before truncation is exactly
`sanitized-readable ++ "-" ++ hex_digest`. -/
theorem claim_C5 (s : String) (parsed : ParseResult)
    (hp : pyUrlparseCore (hintOf s) = .ok parsed) :
    blake2bHexdigest (hintOf s) 6 =
      bytesToHex (blake2b (utf8Encode (hintOf s)) 6) ∧
    (blake2b (utf8Encode (hintOf s)) 6).length = 6 ∧
    (blake2bHexdigest (hintOf s) 6).length = 12 ∧
    base_candidate s parsed =
      sanitizeReadable (readableOf (hintOf s) parsed) ++
        '-' :: blake2bHexdigest (hintOf s) 6 ∧
    _safe_basename s 64 = .ok ⟨postTrunc 64 (base_candidate s parsed)⟩ :=
  ⟨rfl, blake2b_length _ 6 (by omega), blake2bHexdigest_length _, rfl,
    safe_basename_ok s 64 parsed hp⟩

/-- C5 witness: the hash-suffix description at the concrete input
`"hello"`. -/
theorem claim_C5_witness :
    blake2bHexdigest (hintOf "hello") 6 =
      bytesToHex (blake2b (utf8Encode (hintOf "hello")) 6) ∧
    (blake2b (utf8Encode (hintOf "hello")) 6).length = 6 ∧
    (blake2bHexdigest (hintOf "hello") 6).length = 12 ∧
    base_candidate "hello" ⟨[], [], "hello".data, [], [], []⟩ =
      sanitizeReadable (readableOf (hintOf "hello") ⟨[], [], "hello".data, [], [], []⟩) ++
        '-' :: blake2bHexdigest (hintOf "hello") 6 ∧
    _safe_basename "hello" 64 =
      .ok ⟨postTrunc 64 (base_candidate "hello" ⟨[], [], "hello".data, [], [], []⟩)⟩ :=
  claim_C5 "hello" ⟨[], [], "hello".data, [], [], []⟩ (by decide)

/-- C4 (amended): whenever `_safe_basename` returns a value it is non-empty;
for `max_len ≥ 1` the length is at most `max_len` and an over-long
concatenation is prefix-truncated to exactly `max_len` characters; at
`max_len = 0` the empty truncation is replaced by the literal `"qr"` —
whose length 2 exceeds the cap, so the bound holds only for
`max_len ≥ 1`. -/
theorem claim_C4 (s : String) (m : Int) (b : String)
    (h : _safe_basename s m = .ok b) :
    b ≠ "" ∧
    (1 ≤ m → (b.length : Int) ≤ m) ∧
    (1 ≤ m → ∀ parsed, pyUrlparseCore (hintOf s) = .ok parsed →
      ((base_candidate s parsed).length : Int) > m →
      b.data = (base_candidate s parsed).take m.toNat ∧ (b.length : Int) = m) ∧
    (m = 0 → b = "qr") := by
  cases hp : pyUrlparseCore (hintOf s) with
  | error e =>
    rw [safe_basename_error s m e hp] at h
    exact absurd h (by simp)
  | ok parsed =>
    rw [safe_basename_ok s m parsed hp] at h
    injection h with h
    subst h
    refine ⟨string_mk_ne_empty (postTrunc_ne_nil _ _), ?_, ?_, ?_⟩
    · intro hm
      by_cases hl : ((base_candidate s parsed).length : Int) > m
      · rw [postTrunc_of_long m hm _ (base_candidate_ne_nil s parsed) hl]
        show ((base_candidate s parsed).take m.toNat).length ≤ (m : Int)
        rw [List.length_take]
        have : min m.toNat (base_candidate s parsed).length ≤ m.toNat :=
          Nat.min_le_left _ _
        omega
      · rw [postTrunc_of_short m _ (by omega) (base_candidate_ne_nil s parsed)]
        show ((base_candidate s parsed).length : Int) ≤ m
        omega
    · intro hm parsed2 hp2 hl
      injection hp2 with hp2
      rw [← hp2] at hl ⊢
      rw [postTrunc_of_long m hm _ (base_candidate_ne_nil s parsed) hl]
      refine ⟨rfl, ?_⟩
      show (((base_candidate s parsed).take m.toNat).length : Int) = m
      rw [List.length_take]
      have : m.toNat ≤ (base_candidate s parsed).length := by omega
      rw [Nat.min_eq_left this]
      omega
    · intro hm
      subst hm
      rw [postTrunc_zero _ (base_candidate_ne_nil s parsed)]

/-- C4 witness: at input `"ato"` and `max_len = 1` the result is the
one-character prefix `"a"`. -/
theorem claim_C4_witness :
    ("a" : String) ≠ "" ∧
    ((1 : Int) ≤ 1 → (("a" : String).length : Int) ≤ 1) ∧
    ((1 : Int) ≤ 1 → ∀ parsed, pyUrlparseCore (hintOf "ato") = .ok parsed →
      ((base_candidate "ato" parsed).length : Int) > 1 →
      ("a" : String).data = (base_candidate "ato" parsed).take (1 : Int).toNat ∧
      (("a" : String).length : Int) = 1) ∧
    ((1 : Int) = 0 → ("a" : String) = "qr") := by
  have hp : pyUrlparseCore (hintOf "ato") = .ok ⟨[], [], "ato".data, [], [], []⟩ := by
    decide
  have hsan : sanitizeReadable (readableOf (hintOf "ato") ⟨[], [], "ato".data, [], [], []⟩) =
      "ato".data := by decide
  have hlen : (base_candidate "ato" ⟨[], [], "ato".data, [], [], []⟩).length = 16 := by
    rw [base_candidate_length, hsan]
    decide
  have hok : _safe_basename "ato" 1 = .ok "a" := by
    rw [safe_basename_ok _ _ _ hp,
      postTrunc_of_long 1 (by omega) _ (base_candidate_ne_nil _ _) (by rw [hlen]; decide)]
    have htake : (base_candidate "ato" ⟨[], [], "ato".data, [], [], []⟩).take
        ((1 : Int).toNat) = ['a'] := by
      rw [base_candidate, hsan, List.take_append_of_le_length (by decide)]
      decide
    rw [htake]
  exact claim_C4 "ato" 1 "a" hok

/-- C4 counterexample: the claimed bound `length ≤ max_len` for every
`max_len` fails at `max_len = 0`: the code substitutes the two-character
literal `"qr"`. -/
theorem claim_C4_cx :
    _safe_basename "ato" 0 = .ok "qr" ∧ ¬ ((("qr" : String).length : Int) ≤ 0) := by
  constructor
  · have hp : pyUrlparseCore (hintOf "ato") = .ok ⟨[], [], "ato".data, [], [], []⟩ := by
      decide
    rw [safe_basename_ok _ _ _ hp, postTrunc_zero _ (base_candidate_ne_nil _ _)]
  · decide

theorem except_isOk_map {α β : Type} (f : α → β) (e : Except String α) :
    (e.map f).isOk = e.isOk := by
  cases e <;> rfl

/-- C8 (amended): the Identifier Deriver is total except for the exception
path of `urlparse`: `_ensure_url_scheme` returns a value iff the trimmed
input is empty or `urlparse` succeeds on it, `_safe_basename` returns a
value iff `urlparse` succeeds on the hint, and a `ValueError` of `urlparse`
propagates unchanged. -/
theorem claim_C8 (s : String) :
    ((_ensure_url_scheme s).isOk =
      (decide ((pyStrip s).data = []) || (pyUrlparseCore (pyStrip s).data).isOk)) ∧
    (∀ m : Int, (_safe_basename s m).isOk = (pyUrlparseCore (hintOf s)).isOk) ∧
    (∀ e, pyUrlparseCore (hintOf s) = .error e → _safe_basename s 64 = .error e) := by
  refine ⟨?_, ?_, ?_⟩
  · simp only [_ensure_url_scheme]
    by_cases he : (pyStrip s).data = []
    · rw [if_pos (by simpa [List.isEmpty_iff] using he)]
      simp [he, Except.isOk, Except.toBool]
    · rw [if_neg (by simpa [List.isEmpty_iff] using he)]
      rw [except_isOk_map]
      simp [he]
  · intro m
    cases hp : pyUrlparseCore (hintOf s) with
    | error e => rw [safe_basename_error s m e hp]; rfl
    | ok parsed => rw [safe_basename_ok s m parsed hp]; rfl
  · intro e hp
    exact safe_basename_error s 64 e hp

/-- C8 witness: the error propagation discharged at the concrete input
`"//["`. -/
theorem claim_C8_witness : _safe_basename "//[" 64 = .error "Invalid IPv6 URL" :=
  (claim_C8 "//[").2.2 "Invalid IPv6 URL" (by decide)

/-- C8 counterexample: the claim of totality ("no exception path") is false:
on input `"//["` (a bracket-mismatched authority) `urlparse` raises
`ValueError("Invalid IPv6 URL")` and both `normalize` and `derive_basename`
propagate it instead of returning a value. -/
theorem claim_C8_cx :
    _ensure_url_scheme "//[" = .error "Invalid IPv6 URL" ∧
    _safe_basename "//[" 64 = .error "Invalid IPv6 URL" ∧
    (∀ v : String, _ensure_url_scheme "//[" ≠ .ok v) ∧
    (∀ v : String, _safe_basename "//[" 64 ≠ .ok v) := by
  have h1 : _ensure_url_scheme "//[" = .error "Invalid IPv6 URL" := by decide
  have h2 : _safe_basename "//[" 64 = .error "Invalid IPv6 URL" := by decide
  refine ⟨h1, h2, ?_, ?_⟩
  · intro v h
    rw [h1] at h
    exact Except.noConfusion h
  · intro v h
    rw [h2] at h
    exact Except.noConfusion h

/-- Unfolding of `_ensure_url_scheme` on a non-blank input with a
successful parse. -/
theorem ensure_cases (s : String) (r : ParseResult)
    (hne : (pyStrip s).data ≠ [])
    (hr : pyUrlparseCore (pyStrip s).data = .ok r) :
    _ensure_url_scheme s = .ok
      (if !r.scheme.isEmpty then pyStrip s
       else if bareDomainMatch (pyStrip s).data then ⟨"https://".data ++ (pyStrip s).data⟩
       else pyStrip s) := by
  simp only [_ensure_url_scheme]
  rw [if_neg (by simpa [List.isEmpty_iff] using hne), hr]
  rfl

/-- C2: `normalize` first trims; it returns the empty string for blank
input, the trimmed input unchanged when URL parsing finds a scheme, the
trimmed input with `https://` prepended when there is no scheme but the
bare-domain pattern matches, and the trimmed input unchanged otherwise;
in particular `normalize("example.com") = "https://example.com"` and
`normalize("http://example.com")` is unchanged. -/
theorem claim_C2 (s : String) :
    ((pyStrip s).data = [] → _ensure_url_scheme s = .ok "") ∧
    (∀ r, pyUrlparseCore (pyStrip s).data = .ok r → r.scheme ≠ [] →
      _ensure_url_scheme s = .ok (pyStrip s)) ∧
    (∀ r, pyUrlparseCore (pyStrip s).data = .ok r → r.scheme = [] →
      bareDomainMatch (pyStrip s).data = true →
      _ensure_url_scheme s = .ok ⟨"https://".data ++ (pyStrip s).data⟩) ∧
    (∀ r, pyUrlparseCore (pyStrip s).data = .ok r → r.scheme = [] →
      bareDomainMatch (pyStrip s).data = false →
      _ensure_url_scheme s = .ok (pyStrip s)) ∧
    _ensure_url_scheme "example.com" = .ok "https://example.com" ∧
    _ensure_url_scheme "http://example.com" = .ok "http://example.com" := by
  refine ⟨?_, ?_, ?_, ?_, by decide, by decide⟩
  · intro he
    simp only [_ensure_url_scheme]
    rw [if_pos (by simpa [List.isEmpty_iff] using he)]
    have : pyStrip s = "" := String.ext_iff.mpr (by rw [he])
    rw [this]
  · intro r hr hs
    by_cases hne : (pyStrip s).data = []
    · simp only [_ensure_url_scheme]
      rw [if_pos (by simpa [List.isEmpty_iff] using hne)]
    · rw [ensure_cases s r hne hr, if_pos (by simpa [List.isEmpty_iff] using hs)]
  · intro r hr hs hb
    have hne : (pyStrip s).data ≠ [] := by
      intro he
      rw [he] at hb
      exact absurd hb (by decide)
    rw [ensure_cases s r hne hr, if_neg (by simp [hs]), if_pos hb]
  · intro r hr hs hb
    by_cases hne : (pyStrip s).data = []
    · simp only [_ensure_url_scheme]
      rw [if_pos (by simpa [List.isEmpty_iff] using hne)]
    · rw [ensure_cases s r hne hr, if_neg (by simp [hs]), if_neg (by simp [hb])]

/-- C2 witness: the branches discharged at concrete inputs. -/
theorem claim_C2_witness :
    _ensure_url_scheme "   " = .ok "" ∧
    _ensure_url_scheme " http://x.org " = .ok (pyStrip " http://x.org ") ∧
    _ensure_url_scheme " www.x.org " =
      .ok ⟨"https://".data ++ (pyStrip " www.x.org ").data⟩ ∧
    _ensure_url_scheme " not a url " = .ok (pyStrip " not a url ") :=
  ⟨(claim_C2 "   ").1 (by decide),
   (claim_C2 " http://x.org ").2.1 ⟨"http".data, "x.org".data, [], [], [], []⟩
     (by decide) (by decide),
   (claim_C2 " www.x.org ").2.2.1 ⟨[], [], "www.x.org".data, [], [], []⟩
     (by decide) (by decide) (by decide),
   (claim_C2 " not a url ").2.2.2.1 ⟨[], [], "not a url".data, [], [], []⟩
     (by decide) (by decide) (by decide)⟩

/-- The readable part as the specification words it: the netloc, followed —
when the path is neither empty nor `"/"` and a non-empty `/`-delimited
segment exists — by the first such segment, joined with `-`; without a
netloc, the first 24 characters of the trimmed hint. -/
def readableSpec (hint : List Char) (r : ParseResult) : List Char :=
  if r.netloc ≠ [] then
    if r.path ≠ [] ∧ r.path ≠ "/".data then
      match (pySplit '/' r.path).find? (fun p => !p.isEmpty) with
      | some seg => r.netloc ++ '-' :: seg
      | none => r.netloc
    else r.netloc
  else hint.take 24

theorem intercalate_single (a : List Char) : List.intercalate ['-'] [a] = a := by
  simp [List.intercalate, List.intersperse]

theorem intercalate_pair (a b : List Char) :
    List.intercalate ['-'] [a, b] = a ++ '-' :: b := by
  simp [List.intercalate, List.intersperse]

/-- C3: the readable part of `derive_basename` agrees with the
specification's description for every hint, and on host
`shop.example.com` with path `/products/42` it is
`shop.example.com-products`. -/
theorem claim_C3 :
    (∀ (hint : List Char) (r : ParseResult),
      readableOf hint r = readableSpec hint r) ∧
    pyUrlparseCore (hintOf "https://shop.example.com/products/42") =
      .ok ⟨"https".data, "shop.example.com".data, "/products/42".data, [], [], []⟩ ∧
    readableOf (hintOf "https://shop.example.com/products/42")
      ⟨"https".data, "shop.example.com".data, "/products/42".data, [], [], []⟩ =
      "shop.example.com-products".data := by
  refine ⟨?_, by decide, by decide⟩
  intro hint r
  by_cases hn : r.netloc = []
  · have hNBf : ¬((!r.netloc.isEmpty) = true) := by simp [hn]
    have hD : readableOf hint r = hint.take 24 := by
      simp only [readableOf, readableParts]
      rw [if_neg hNBf]
      rw [if_neg (show ¬(([hint.take 24] : List (List Char)).isEmpty = true) by simp)]
      exact intercalate_single _
    rw [hD]
    simp only [readableSpec]
    rw [if_neg (not_not_intro hn)]
  · have hNB : (!r.netloc.isEmpty) = true := by simp [List.isEmpty_iff, hn]
    simp only [readableSpec]
    rw [if_pos hn]
    by_cases hcond : (!r.path.isEmpty && decide (r.path ≠ "/".data)) = true
    · have hcand : (!r.path.isEmpty) = true ∧ decide (r.path ≠ "/".data) = true := by
        simpa using hcond
      have hc1 : r.path ≠ [] := by simpa [List.isEmpty_iff] using hcand.1
      have hc2 : r.path ≠ "/".data := of_decide_eq_true hcand.2
      rw [if_pos ⟨hc1, hc2⟩]
      cases hf : (pySplit '/' r.path).find? (fun p => !p.isEmpty) with
      | none =>
        have hseg : firstSeg r.path = [] := by simp [firstSeg, hf]
        have hsegf : ¬((!(firstSeg r.path).isEmpty) = true) := by simp [hseg]
        have hro : readableOf hint r = List.intercalate ['-'] [r.netloc] := by
          simp only [readableOf, readableParts]
          rw [if_pos hNB, if_pos hcond, if_neg hsegf]
          rw [if_neg (show ¬((r.netloc :: ([] : List (List Char))).isEmpty = true) by simp)]
        rw [hro, intercalate_single]
      | some seg =>
        have hsegeq : firstSeg r.path = seg := by simp [firstSeg, hf]
        have hsegne : (!(firstSeg r.path).isEmpty) = true := by
          rw [hsegeq]
          have := List.find?_some hf
          simpa using this
        have hro : readableOf hint r =
            List.intercalate ['-'] [r.netloc, firstSeg r.path] := by
          simp only [readableOf, readableParts]
          rw [if_pos hNB, if_pos hcond, if_pos hsegne]
          rw [if_neg (show ¬((r.netloc :: [firstSeg r.path]).isEmpty = true) by simp)]
        rw [hro, intercalate_pair, hsegeq]
    · have hcondP : ¬(r.path ≠ [] ∧ r.path ≠ "/".data) := by
        intro hand
        apply hcond
        have h1 : r.path.isEmpty = false := by
          simpa [List.isEmpty_iff] using hand.1
        simp [h1, hand.2]
      rw [if_neg hcondP]
      have hro : readableOf hint r = List.intercalate ['-'] [r.netloc] := by
        simp only [readableOf, readableParts]
        rw [if_pos hNB, if_neg hcond]
        rw [if_neg (show ¬((r.netloc :: ([] : List (List Char))).isEmpty = true) by simp)]
      rw [hro, intercalate_single]

theorem except_bind_error {α β : Type} (e : String) (f : α → Except String β) :
    ((Except.error e : Except String α) >>= f) = Except.error e := rfl

theorem except_bind_ok {α β : Type} (a : α) (f : α → Except String β) :
    ((Except.ok a : Except String α) >>= f) = f a := rfl

theorem except_map_error {α β : Type} (e : String) (f : α → β) :
    (Except.error e : Except String α).map f = Except.error e := rfl

theorem except_map_ok {α β : Type} (a : α) (f : α → β) :
    (Except.ok a : Except String α).map f = Except.ok (f a) := rfl

theorem except_pure {α : Type} (a : α) :
    (pure a : Except String α) = Except.ok a := rfl

/-- C6: the basename is a deterministic function of the hint alone:
`derive_basename` applied twice to the same string gives identical output,
and two raw inputs with equal normalized payloads derive identical
basenames. -/
theorem claim_C6 :
    (∀ (s : String) (m : Int), _safe_basename s m = _safe_basename s m) ∧
    (∀ t1 t2 : String, t1 ≠ t2 →
      _ensure_url_scheme t1 = _ensure_url_scheme t2 →
      (_ensure_url_scheme t1).bind (fun p => _safe_basename p 64) =
        (_ensure_url_scheme t2).bind (fun p => _safe_basename p 64)) :=
  ⟨fun _ _ => rfl, fun _ _ _ h => by rw [h]⟩

/-- C6 witness: the distinct raw inputs `"example.com"` and
`" example.com "` normalize to the same payload and derive the same
basename. -/
theorem claim_C6_witness :
    ("example.com" : String) ≠ " example.com " ∧
    (_ensure_url_scheme "example.com").bind (fun p => _safe_basename p 64) =
      (_ensure_url_scheme " example.com ").bind (fun p => _safe_basename p 64) :=
  ⟨by decide, claim_C6.2 "example.com" " example.com " (by decide) (by decide)⟩

/-! ## The `make_qr_svgs` loop -/

/-- The text an item contributes: `None` and blank items contribute
nothing, any other item its stripped text. -/
def itemText (raw : Option String) : Option String :=
  raw.bind fun r => if (pyStrip r).data.isEmpty then none else some (pyStrip r)

/-- The path derived for one non-blank item text. -/
def perItemPath (out_dir t : String) : Except String String := do
  let payload ← _ensure_url_scheme t
  let base ← _safe_basename payload 64
  pure (out_dir ++ "/" ++ base ++ ".svg")

theorem mqrLoop_acc (d : String) :
    ∀ (items : List (Option String)) (acc : List String),
      mqrLoop d acc items =
        ((items.filterMap itemText).mapM (perItemPath d)).map (acc ++ ·) := by
  intro items
  induction items with
  | nil =>
    intro acc
    rw [List.filterMap_nil, List.mapM_nil, except_pure, except_map_ok]
    show Except.ok acc = Except.ok (acc ++ [])
    rw [List.append_nil]
  | cons raw rest ih =>
    intro acc
    cases raw with
    | none =>
      have h1 : itemText none = none := rfl
      rw [List.filterMap_cons, h1]
      show mqrLoop d acc rest = _
      exact ih acc
    | some r =>
      by_cases ht : (pyStrip r).data.isEmpty = true
      · have h1 : itemText (some r) = none := by
          simp only [itemText, Option.bind]
          rw [if_pos ht]
        rw [List.filterMap_cons, h1]
        have hL : mqrLoop d acc (some r :: rest) = mqrLoop d acc rest := by
          show (if (pyStrip r).data.isEmpty = true then mqrLoop d acc rest else _) = _
          rw [if_pos ht]
        rw [hL]
        exact ih acc
      · have h1 : itemText (some r) = some (pyStrip r) := by
          simp only [itemText, Option.bind]
          rw [if_neg ht]
        have hL : mqrLoop d acc (some r :: rest) =
            (_ensure_url_scheme (pyStrip r)) >>= (fun payload =>
              (_safe_basename payload 64) >>= (fun base =>
                mqrLoop d (acc ++ [d ++ "/" ++ base ++ ".svg"]) rest)) := by
          show (if (pyStrip r).data.isEmpty = true then mqrLoop d acc rest else _) = _
          rw [if_neg ht]
        rw [List.filterMap_cons, h1, List.mapM_cons, hL]
        cases he2 : _ensure_url_scheme (pyStrip r) with
        | error e2 =>
          have hper : perItemPath d (pyStrip r) = .error e2 := by
            show ((_ensure_url_scheme (pyStrip r)) >>= _) = _
            rw [he2, except_bind_error]
          simp only [hper, except_bind_error, except_map_error]
        | ok payload =>
          cases hb : _safe_basename payload 64 with
          | error e3 =>
            have hper : perItemPath d (pyStrip r) = .error e3 := by
              show ((_ensure_url_scheme (pyStrip r)) >>= _) = _
              rw [he2, except_bind_ok]
              show ((_safe_basename payload 64) >>= _) = _
              rw [hb, except_bind_error]
            simp only [hb, hper, except_bind_error, except_bind_ok,
              except_map_error]
          | ok base =>
            have hper : perItemPath d (pyStrip r) =
                .ok (d ++ "/" ++ base ++ ".svg") := by
              show ((_ensure_url_scheme (pyStrip r)) >>= _) = _
              rw [he2, except_bind_ok]
              show ((_safe_basename payload 64) >>= _) = _
              rw [hb, except_bind_ok, except_pure]
            rw [except_bind_ok, hb, except_bind_ok,
              ih (acc ++ [d ++ "/" ++ base ++ ".svg"]), hper]
            cases hm : (rest.filterMap itemText).mapM (perItemPath d) with
            | error e4 =>
              simp only [except_bind_ok, except_bind_error, except_map_error]
            | ok ps =>
              simp only [except_bind_ok, except_pure, except_map_ok]
              rw [List.append_assoc, List.singleton_append]

theorem mapM_except_length {α β : Type} (f : α → Except String β) :
    ∀ (l : List α) (ps : List β), l.mapM f = .ok ps → ps.length = l.length := by
  intro l
  induction l with
  | nil =>
    intro ps h
    rw [List.mapM_nil, except_pure] at h
    injection h with h
    cases h
    rfl
  | cons a t ih =>
    intro ps h
    rw [List.mapM_cons] at h
    cases ha : f a with
    | error e => rw [ha, except_bind_error] at h; exact Except.noConfusion h
    | ok b =>
      rw [ha, except_bind_ok] at h
      cases hm : t.mapM f with
      | error e => rw [hm, except_bind_error] at h; exact Except.noConfusion h
      | ok qs =>
        rw [hm, except_bind_ok, except_pure] at h
        injection h with h
        cases h
        simp [List.length_cons, ih qs hm]

/-- C7: `make_qr_svgs` silently skips each item that is `None` or blank
after trimming and (when it returns) yields exactly one full path per
remaining item, in input order, so its length is the number of non-blank
items. -/
theorem claim_C7 (items : List (Option String)) (d : String) :
    make_qr_svgs items d =
      ((items.filterMap itemText).mapM (perItemPath d)) ∧
    (∀ ps, make_qr_svgs items d = .ok ps →
      ps.length = (items.filterMap itemText).length) := by
  have h := mqrLoop_acc d items []
  have h0 : make_qr_svgs items d =
      ((items.filterMap itemText).mapM (perItemPath d)) := by
    rw [make_qr_svgs, h]
    cases hm : (items.filterMap itemText).mapM (perItemPath d) with
    | error e => rw [except_map_error]
    | ok ps => rw [except_map_ok, List.nil_append]
  refine ⟨h0, ?_⟩
  intro ps hps
  rw [h0] at hps
  exact mapM_except_length (perItemPath d) _ ps hps

/-- C7 witness: a list of only blank and `None` items maps to the empty
path list. -/
theorem claim_C7_witness :
    make_qr_svgs [some "", none, some "   "] "qr_svgs" =
      (([some "", none, some "   "].filterMap itemText).mapM
        (perItemPath "qr_svgs")) ∧
    ([] : List String).length =
      ([some "", none, some "   "].filterMap itemText).length :=
  ⟨(claim_C7 [some "", none, some "   "] "qr_svgs").1,
   (claim_C7 [some "", none, some "   "] "qr_svgs").2 [] (by decide)⟩

/-- C9: a `None` item anywhere in the sequence is skipped without raising
and contributes no output path: deleting it leaves the result unchanged. -/
theorem claim_C9 (pre post : List (Option String)) (d : String) :
    make_qr_svgs (pre ++ none :: post) d = make_qr_svgs (pre ++ post) d := by
  rw [(claim_C7 (pre ++ none :: post) d).1, (claim_C7 (pre ++ post) d).1]
  rw [List.filterMap_append, List.filterMap_append, List.filterMap_cons]
  have h1 : itemText none = none := rfl
  rw [h1]

/-! ## Lemmas for the idempotence of `_ensure_url_scheme` -/

theorem takeWhile_append_all {q : Char → Bool} :
    ∀ (x z : List Char), x.all q = true →
      (x ++ z).takeWhile q = x ++ z.takeWhile q := by
  intro x
  induction x with
  | nil => intro z _; rfl
  | cons c cs ih =>
    intro z hx
    obtain ⟨hc, hcs⟩ : q c = true ∧ cs.all q = true := by simpa using hx
    rw [List.cons_append, List.takeWhile_cons, if_pos hc, ih z hcs,
      List.cons_append]

theorem dropWhile_append_all {q : Char → Bool} :
    ∀ (x z : List Char), x.all q = true →
      (x ++ z).dropWhile q = z.dropWhile q := by
  intro x
  induction x with
  | nil => intro z _; rfl
  | cons c cs ih =>
    intro z hx
    obtain ⟨hc, hcs⟩ : q c = true ∧ cs.all q = true := by simpa using hx
    rw [List.cons_append, List.dropWhile_cons, if_pos hc, ih z hcs]

theorem dropWhile_head_false {q : Char → Bool} {l : List Char} {c : Char}
    {m : List Char} (h : l.dropWhile q = c :: m) : q c = false := by
  have hh := List.head?_dropWhile_not q l
  rw [h] at hh
  simpa using hh

theorem dropWhile_cons_of_false {q : Char → Bool} {c : Char} (l : List Char)
    (hc : q c = false) : (c :: l).dropWhile q = c :: l := by
  rw [List.dropWhile_cons, if_neg (by simp [hc])]

theorem dropWhile_idem (q : Char → Bool) (l : List Char) :
    (l.dropWhile q).dropWhile q = l.dropWhile q := by
  cases h : l.dropWhile q with
  | nil => rfl
  | cons c m => exact dropWhile_cons_of_false m (dropWhile_head_false h)

theorem stripBy_decomp (q : Char → Bool) (l : List Char) :
    ∃ w, l.dropWhile q = pyStripBy q l ++ w := by
  refine ⟨((l.dropWhile q).reverse.takeWhile q).reverse, ?_⟩
  have h := List.takeWhile_append_dropWhile (p := q) (l := (l.dropWhile q).reverse)
  have h2 := congrArg List.reverse h
  rw [List.reverse_append, List.reverse_reverse] at h2
  exact h2.symm

theorem stripBy_dropWhile_self (q : Char → Bool) (l : List Char) :
    (pyStripBy q l).dropWhile q = pyStripBy q l := by
  obtain ⟨w, hw⟩ := stripBy_decomp q l
  cases hr : pyStripBy q l with
  | nil => rfl
  | cons c m =>
    have hq : q c = false := by
      refine dropWhile_head_false (l := l) (m := m ++ w) ?_
      rw [hw, hr, List.cons_append]
    exact dropWhile_cons_of_false m hq

theorem stripBy_reverse_eq (q : Char → Bool) (l : List Char) :
    (pyStripBy q l).reverse = (l.dropWhile q).reverse.dropWhile q := by
  show (((l.dropWhile q).reverse.dropWhile q).reverse).reverse = _
  rw [List.reverse_reverse]

theorem stripBy_reverse_dropWhile_self (q : Char → Bool) (l : List Char) :
    (pyStripBy q l).reverse.dropWhile q = (pyStripBy q l).reverse := by
  rw [stripBy_reverse_eq]
  exact dropWhile_idem q _

theorem stripBy_idem (q : Char → Bool) (l : List Char) :
    pyStripBy q (pyStripBy q l) = pyStripBy q l := by
  show (((pyStripBy q l).dropWhile q).reverse.dropWhile q).reverse = pyStripBy q l
  rw [stripBy_dropWhile_self, stripBy_reverse_dropWhile_self, List.reverse_reverse]

theorem pyStrip_idem (s : String) : pyStrip (pyStrip s) = pyStrip s := by
  show (⟨pyStripBy pyIsSpace (pyStripBy pyIsSpace s.data)⟩ : String) = pyStrip s
  rw [stripBy_idem]
  rfl

/-- Stripping is the identity on `https://` followed by an already
stripped non-empty string. -/
theorem strip_append_https (s : String) (hne : (pyStrip s).data ≠ []) :
    pyStrip ⟨"https://".data ++ (pyStrip s).data⟩ =
      ⟨"https://".data ++ (pyStrip s).data⟩ := by
  have h1 : ("https://".data ++ (pyStrip s).data).dropWhile pyIsSpace =
      "https://".data ++ (pyStrip s).data := by
    show ('h' :: ("ttps://".data ++ (pyStrip s).data)).dropWhile pyIsSpace = _
    rw [dropWhile_cons_of_false _ (by decide)]
    rfl
  have h3 : ((pyStrip s).data.reverse ++ "https://".data.reverse).dropWhile
      pyIsSpace = (pyStrip s).data.reverse ++ "https://".data.reverse := by
    have hrev : (pyStrip s).data.reverse =
        (s.data.dropWhile pyIsSpace).reverse.dropWhile pyIsSpace :=
      stripBy_reverse_eq pyIsSpace s.data
    cases hc : (pyStrip s).data.reverse with
    | nil =>
      exact absurd (by simpa using congrArg List.reverse hc) hne
    | cons c m =>
      have hq : pyIsSpace c = false := by
        refine dropWhile_head_false
          (l := (s.data.dropWhile pyIsSpace).reverse) (m := m) ?_
        rw [← hrev, hc]
      exact dropWhile_cons_of_false _ hq
  show (⟨pyStripBy pyIsSpace ("https://".data ++ (pyStrip s).data)⟩ : String) = _
  unfold pyStripBy
  rw [h1, List.reverse_append, h3, List.reverse_append, List.reverse_reverse,
    List.reverse_reverse]

theorem contains_false_of_all {q : Char → Bool} (l : List Char)
    (hall : l.all q = true) (c : Char) (hc : q c = false) :
    l.contains c = false := by
  cases hcc : l.contains c with
  | false => rfl
  | true =>
    have hmem : c ∈ l := by simpa using hcc
    have := (List.all_eq_true.mp hall) c hmem
    rw [hc] at this
    exact Bool.noConfusion this

theorem all_imp_of {q1 q2 : Char → Bool} (h : ∀ c, q1 c = true → q2 c = true)
    (l : List Char) (hl : l.all q1 = true) : l.all q2 = true := by
  rw [List.all_eq_true] at hl ⊢
  exact fun x hx => h x (hl x hx)

theorem isAlpha_isDomain (c : Char) (h : c.isAlpha = true) :
    isDomainChar c = true := by
  simp [isDomainChar, h]

theorem domainChar_props (c : Char) (h : isDomainChar c = true) :
    (c ≠ '\t' && c ≠ '\r' && c ≠ '\n') = true ∧
    (!(c = '/' || c = '?' || c = '#')) = true ∧
    c ≠ '[' ∧ c ≠ ']' := by
  have hne : ∀ b : Char, isDomainChar b = false → c ≠ b := by
    intro b hb hcb
    rw [hcb, hb] at h
    exact Bool.noConfusion h
  refine ⟨?_, ?_, hne '[' (by decide), hne ']' (by decide)⟩
  · simp [hne '\t' (by decide), hne '\r' (by decide), hne '\n' (by decide)]
  · simp [hne '/' (by decide), hne '?' (by decide), hne '#' (by decide)]

theorem hostPartMatch_all_domain (host : List Char)
    (h : hostPartMatch host = true) : host.all isDomainChar = true := by
  unfold hostPartMatch at h
  rw [List.span_eq_take_drop] at h
  cases hd : host.reverse.dropWhile (fun c => c ≠ '.') with
  | nil => rw [hd] at h; exact absurd h (by simp)
  | cons d revPre =>
    rw [hd] at h
    obtain ⟨⟨⟨-, h2⟩, -⟩, h4⟩ :
        ((revPre ≠ [] ∧ revPre.all isDomainChar = true) ∧
          2 ≤ (host.reverse.takeWhile (fun c => c ≠ '.')).length) ∧
        (host.reverse.takeWhile (fun c => c ≠ '.')).all Char.isAlpha = true := by
      simpa using h
    have hdot : d = '.' := by
      have hdw := dropWhile_head_false hd
      simpa using hdw
    have hsplit :
        host = ((host.reverse.takeWhile (fun c => c ≠ '.')) ++ d :: revPre).reverse := by
      have hta := List.takeWhile_append_dropWhile
        (p := fun c => c ≠ '.') (l := host.reverse)
      rw [hd] at hta
      have h2r := congrArg List.reverse hta
      rw [List.reverse_reverse] at h2r
      exact h2r.symm
    rw [hsplit, List.all_reverse, List.all_append, List.all_cons]
    have htw : (host.reverse.takeWhile (fun c => c ≠ '.')).all isDomainChar = true :=
      all_imp_of isAlpha_isDomain _ h4
    rw [hdot, htw, h2]
    decide

theorem stripBy_getLast_not (q : Char → Bool) (l : List Char) (c : Char)
    (h : (pyStripBy q l).getLast? = some c) : q c = false := by
  rw [List.getLast?_eq_head?_reverse, stripBy_reverse_eq] at h
  cases hd : (l.dropWhile q).reverse.dropWhile q with
  | nil => rw [hd] at h; exact Option.noConfusion h
  | cons d m =>
    rw [hd] at h
    injection h with h
    rw [← h]
    exact dropWhile_head_false hd

theorem stripped_domainThenPath (s : String)
    (hb : bareDomainMatch (pyStrip s).data = true) :
    domainThenPath (pyStrip s).data = true := by
  unfold bareDomainMatch at hb
  cases hA : domainThenPath (pyStrip s).data with
  | true => rfl
  | false =>
    rw [hA] at hb
    simp only [Bool.false_or] at hb
    cases hl : (pyStrip s).data.getLast? with
    | none => rw [hl] at hb; exact absurd hb (by simp)
    | some c =>
      rw [hl] at hb
      obtain ⟨hcn, -⟩ : c = '\n' ∧ domainThenPath (pyStrip s).data.dropLast = true := by
        simpa using hb
      have hq : pyIsSpace c = false := stripBy_getLast_not pyIsSpace s.data c hl
      rw [hcn] at hq
      exact absurd hq (by decide)

theorem domainThenPath_host_all (t : List Char) (h : domainThenPath t = true) :
    (t.takeWhile (fun c => c ≠ '/')).all isDomainChar = true := by
  unfold domainThenPath at h
  obtain ⟨h1, -⟩ : hostPartMatch (t.takeWhile (fun c => c ≠ '/')) = true ∧
      (t.dropWhile (fun c => c ≠ '/')).all (fun c => c ≠ '\n') = true := by
    simpa using h
  exact hostPartMatch_all_domain _ h1

theorem dropBad_append_https (u : List Char) :
    dropBadUrlBytes ("https://".data ++ u) =
      "https://".data ++ dropBadUrlBytes u := by
  unfold dropBadUrlBytes
  rw [List.filter_append]
  congr 1

theorem splitNetloc_of_host (t : List Char)
    (hhost : (t.takeWhile (fun c => c ≠ '/')).all isDomainChar = true) :
    (splitNetloc (dropBadUrlBytes t)).1 = t.takeWhile (fun c => c ≠ '/') := by
  have hgood : ∀ c ∈ t.takeWhile (fun c => c ≠ '/'),
      (c ≠ '\t' && c ≠ '\r' && c ≠ '\n') = true := fun c hc =>
    (domainChar_props c ((List.all_eq_true.mp hhost) c hc)).1
  have hsplit : dropBadUrlBytes t = t.takeWhile (fun c => c ≠ '/') ++
      dropBadUrlBytes (t.dropWhile (fun c => c ≠ '/')) := by
    conv_lhs => rw [← List.takeWhile_append_dropWhile (p := fun c => c ≠ '/') (l := t)]
    unfold dropBadUrlBytes
    rw [List.filter_append]
    congr 1
    exact List.filter_eq_self.mpr hgood
  unfold splitNetloc
  rw [List.span_eq_take_drop]
  show (dropBadUrlBytes t).takeWhile _ = _
  rw [hsplit,
    takeWhile_append_all _ _ (all_imp_of (fun c hc => (domainChar_props c hc).2.1) _ hhost)]
  have hrest : (dropBadUrlBytes (t.dropWhile (fun c => c ≠ '/'))).takeWhile
      (fun c => !(c = '/' || c = '?' || c = '#')) = [] := by
    cases hdw : t.dropWhile (fun c => c ≠ '/') with
    | nil => rfl
    | cons c rest2 =>
      have hc : c = '/' := by
        have hdf := dropWhile_head_false hdw
        simpa using hdf
      rw [hc]
      have hdb : dropBadUrlBytes ('/' :: rest2) = '/' :: dropBadUrlBytes rest2 := by
        unfold dropBadUrlBytes
        rw [List.filter_cons, if_pos (by decide)]
      rw [hdb, List.takeWhile_cons, if_neg (by decide)]
  rw [hrest, List.append_nil]

theorem urlsplit_https (t : List Char)
    (hhost : (t.takeWhile (fun c => c ≠ '/')).all isDomainChar = true) :
    ∃ url5 query fragment, pyUrlsplitCore ("https://".data ++ t) =
      .ok ("https".data, t.takeWhile (fun c => c ≠ '/'), url5, query, fragment) := by
  have h0 : ("https://".data ++ t).dropWhile isC0OrSpace = "https://".data ++ t := by
    show ('h' :: ("ttps://".data ++ t)).dropWhile isC0OrSpace = _
    rw [dropWhile_cons_of_false _ (by decide)]
    rfl
  have h1 := dropBad_append_https t
  have hsp : ("https://".data ++ dropBadUrlBytes t).span (fun c => c ≠ ':') =
      ("https".data, ':' :: ('/' :: '/' :: dropBadUrlBytes t)) := by
    rw [List.span_eq_take_drop]
    have h2 : ("https://".data ++ dropBadUrlBytes t).takeWhile (fun c => c ≠ ':') =
        "https".data := by
      show ("https".data ++ (':' :: '/' :: '/' :: dropBadUrlBytes t)).takeWhile
        (fun c => c ≠ ':') = _
      rw [takeWhile_append_all _ _ (by decide), List.takeWhile_cons,
        if_neg (by decide), List.append_nil]
    have h3 : ("https://".data ++ dropBadUrlBytes t).dropWhile (fun c => c ≠ ':') =
        ':' :: ('/' :: '/' :: dropBadUrlBytes t) := by
      show ("https".data ++ (':' :: '/' :: '/' :: dropBadUrlBytes t)).dropWhile
        (fun c => c ≠ ':') = _
      rw [dropWhile_append_all _ _ (by decide), List.dropWhile_cons,
        if_neg (by decide)]
    rw [h2, h3]
  have hes : extractScheme ("https://".data ++ dropBadUrlBytes t) =
      ("https".data, '/' :: '/' :: dropBadUrlBytes t) := by
    unfold extractScheme
    rw [hsp]
    rfl
  have hn1 := splitNetloc_of_host t hhost
  have hbrL : (splitNetloc (dropBadUrlBytes t)).1.contains '[' = false := by
    rw [hn1]
    exact contains_false_of_all _ hhost '[' (by decide)
  have hbrR : (splitNetloc (dropBadUrlBytes t)).1.contains ']' = false := by
    rw [hn1]
    exact contains_false_of_all _ hhost ']' (by decide)
  have hnl : netlocPhase ('/' :: '/' :: dropBadUrlBytes t) =
      .ok (splitNetloc (dropBadUrlBytes t)) := by
    have hred : netlocPhase ('/' :: '/' :: dropBadUrlBytes t) =
        (if (((splitNetloc (dropBadUrlBytes t)).1.contains '[' &&
              !(splitNetloc (dropBadUrlBytes t)).1.contains ']')
            || ((splitNetloc (dropBadUrlBytes t)).1.contains ']' &&
              !(splitNetloc (dropBadUrlBytes t)).1.contains '[')) then
          Except.error "Invalid IPv6 URL"
        else Except.ok (splitNetloc (dropBadUrlBytes t))) := rfl
    rw [hred, hbrL, hbrR]
    rfl
  have hfinal : pyUrlsplitCore ("https://".data ++ t) =
      .ok ("https".data, (splitNetloc (dropBadUrlBytes t)).1,
        (splitAtFirst '?' (splitAtFirst '#' (splitNetloc (dropBadUrlBytes t)).2).1).1,
        (splitAtFirst '?' (splitAtFirst '#' (splitNetloc (dropBadUrlBytes t)).2).1).2,
        (splitAtFirst '#' (splitNetloc (dropBadUrlBytes t)).2).2) := by
    simp only [pyUrlsplitCore]
    rw [h0, h1, hes]
    dsimp only
    rw [hnl, except_map_ok]
  rw [hn1] at hfinal
  exact ⟨_, _, _, hfinal⟩

theorem urlparse_scheme_of_split (input scheme netloc url5 query fragment : List Char)
    (h : pyUrlsplitCore input = .ok (scheme, netloc, url5, query, fragment)) :
    ∃ r : ParseResult, pyUrlparseCore input = .ok r ∧ r.scheme = scheme := by
  unfold pyUrlparseCore
  rw [h, except_map_ok]
  refine ⟨_, rfl, ?_⟩
  show ParseResult.scheme _ = scheme
  dsimp only
  split <;> rfl

/-- On a stripped, non-blank input matching the bare-domain pattern,
`_ensure_url_scheme` of the `https://`-prefixed string is the identity:
the prefixed string parses with scheme `https`. -/
theorem ensure_https_of_bare (s : String) (hne : (pyStrip s).data ≠ [])
    (hb : bareDomainMatch (pyStrip s).data = true) :
    _ensure_url_scheme ⟨"https://".data ++ (pyStrip s).data⟩ =
      .ok ⟨"https://".data ++ (pyStrip s).data⟩ := by
  have hdt : domainThenPath (pyStrip s).data = true := stripped_domainThenPath s hb
  have hhost := domainThenPath_host_all _ hdt
  obtain ⟨url5, query, fragment, hsplit⟩ := urlsplit_https (pyStrip s).data hhost
  obtain ⟨r, hr, hsch⟩ := urlparse_scheme_of_split _ _ _ _ _ _ hsplit
  have hstrip := strip_append_https s hne
  simp only [_ensure_url_scheme]
  rw [hstrip]
  have hdata : (⟨"https://".data ++ (pyStrip s).data⟩ : String).data =
      "https://".data ++ (pyStrip s).data := rfl
  rw [hdata]
  rw [if_neg (by simp), hr, except_map_ok]
  rw [if_pos (by simp [hsch])]

/-- C10: `_ensure_url_scheme` is idempotent: composing it with itself (on
the success value) gives the same result as a single application. -/
theorem claim_C10 (s : String) :
    (_ensure_url_scheme s).bind _ensure_url_scheme = _ensure_url_scheme s := by
  by_cases he : (pyStrip s).data = []
  · have h0 : _ensure_url_scheme s = .ok (pyStrip s) := by
      simp only [_ensure_url_scheme]
      rw [if_pos (by simpa [List.isEmpty_iff] using he)]
    rw [h0]
    show _ensure_url_scheme (pyStrip s) = .ok (pyStrip s)
    have hs0 : pyStrip s = "" := String.ext_iff.mpr (by rw [he])
    rw [hs0]
    decide
  · cases hp : pyUrlparseCore (pyStrip s).data with
    | error e =>
      have h0 : _ensure_url_scheme s = .error e := by
        simp only [_ensure_url_scheme]
        rw [if_neg (by simpa [List.isEmpty_iff] using he), hp]
        rfl
      rw [h0]
      rfl
    | ok r =>
      have hidem : pyStrip (pyStrip s) = pyStrip s := pyStrip_idem s
      have hne2 : (pyStrip (pyStrip s)).data ≠ [] := by rw [hidem]; exact he
      have hp2 : pyUrlparseCore (pyStrip (pyStrip s)).data = .ok r := by
        rw [hidem]; exact hp
      have hcc := ensure_cases (pyStrip s) r hne2 hp2
      rw [hidem] at hcc
      rw [ensure_cases s r he hp]
      by_cases hs : (!r.scheme.isEmpty) = true
      · rw [if_pos hs]
        show _ensure_url_scheme (pyStrip s) = .ok (pyStrip s)
        rw [hcc, if_pos hs]
      · rw [if_neg hs]
        by_cases hb : bareDomainMatch (pyStrip s).data = true
        · rw [if_pos hb]
          show _ensure_url_scheme ⟨"https://".data ++ (pyStrip s).data⟩ =
            .ok ⟨"https://".data ++ (pyStrip s).data⟩
          exact ensure_https_of_bare s he hb
        · rw [if_neg hb]
          show _ensure_url_scheme (pyStrip s) = .ok (pyStrip s)
          rw [hcc, if_neg hs, if_neg hb]

end GenQr
